import Mathlib

/-!
AUnrealEngineCharacter: health and firing state.

A shallow embedding of `Source/UnrealEngine/UnrealEngineCharacter.{h,cpp}`.

* The C++ `float` fields and arguments are IEEE-754 binary32 values: NaN, the
  two infinities, and signed finite values counted in units of `2^-149`.
  Comparison follows the C++ operators (false on NaN, `-0 == +0`) and
  subtraction rounds the exact difference to the nearest value with 24
  significant bits, ties to even, overflowing to an infinity.
* Components of the engine's vectors and rotators are kept as exact
  rationals; the class only forwards them to `SpawnActor`.
* The character is a record of the fields the class declares, the engine
  state its methods read (network role, local control, transform, controller)
  and a trace of the engine calls its methods have made so far.
* Methods are state transformers `AUnrealEngineCharacter → AUnrealEngineCharacter`
  (or return a pair when the C++ method returns a value).
* The actor is assumed to live in a world (`GetWorld()` and `GEngine` are
  dereferenced without a check by the source).
-/

set_option maxRecDepth 100000

namespace UnrealEngineCharacter

/-- The C++ type `float` (IEEE-754 binary32). `Finite negative k` is the value
`± k * 2^-149`; `Finite true 0` is `-0.0f`. Every finite binary32 value, normal
or subnormal, is of this form with `k` of at most 24 significant bits and
`k < 2^128 * 2^149`. -/
inductive float
  | NaN
  | Inf (negative : Bool)
  | Finite (negative : Bool) (k : Nat)
  deriving DecidableEq, Repr

/-- Number of binary digits of `n`, by at most `fuel` halvings. -/
def float.bitLengthAux : Nat → Nat → Nat
  | 0, _ => 0
  | fuel + 1, n => if n = 0 then 0 else float.bitLengthAux fuel (n / 2) + 1

/-- Number of binary digits of `n` (0 for 0). -/
def float.bitLength (n : Nat) : Nat := float.bitLengthAux n n

/-- The signed count of units of `2^-149` of a finite value (0 otherwise). -/
def float.toInt : float → Int
  | float.Finite true k => -(k : Int)
  | float.Finite false k => (k : Int)
  | _ => 0

/-- The exact rational value of a finite value (0 otherwise). -/
def float.toRat (x : float) : ℚ := (x.toInt : ℚ) / 2 ^ 149

/-- Whether the value is neither NaN nor an infinity. -/
def float.isFinite : float → Bool
  | float.Finite _ _ => true
  | _ => false

/-- Whether the value is one a binary32 variable can hold: a finite value
needs its digits below the 24 leading ones to be zero and to be in range. -/
def float.isBinary32 : float → Bool
  | float.Finite _ k =>
    decide (k < 2 ^ 128 * 2 ^ 149) &&
      (decide (float.bitLength k ≤ 24) || decide (k % 2 ^ (float.bitLength k - 24) = 0))
  | _ => true

/-- The C++ `operator<` on `float`. -/
def float.lt : float → float → Bool
  | float.NaN, _ => false
  | _, float.NaN => false
  | float.Inf a, float.Inf b => a && !b
  | float.Inf a, float.Finite _ _ => a
  | float.Finite _ _, float.Inf b => !b
  | float.Finite s k, float.Finite t l =>
    decide (float.toInt (float.Finite s k) < float.toInt (float.Finite t l))

/-- The C++ `operator<=` on `float`. -/
def float.le : float → float → Bool
  | float.NaN, _ => false
  | _, float.NaN => false
  | a, b => !(float.lt b a)

/-- The C++ `operator==` on `float`. -/
def float.eq : float → float → Bool
  | float.NaN, _ => false
  | _, float.NaN => false
  | float.Inf a, float.Inf b => a == b
  | float.Inf _, float.Finite _ _ => false
  | float.Finite _ _, float.Inf _ => false
  | float.Finite s k, float.Finite t l =>
    decide (float.toInt (float.Finite s k) = float.toInt (float.Finite t l))

/-- Rounding of the magnitude `n` (in units of `2^-149`) to binary32: keep the
24 leading binary digits, round to nearest with ties to even, and overflow to
an infinity from `2^128` on. -/
def float.round (negative : Bool) (n : Nat) : float :=
  let L := float.bitLength n
  if L ≤ 24 then float.Finite negative n
  else
    let s := L - 24
    let q := n / 2 ^ s
    let r := n % 2 ^ s
    let h := 2 ^ (s - 1)
    let q1 := if h < r ∨ (r = h ∧ q % 2 = 1) then q + 1 else q
    if 2 ^ 128 * 2 ^ 149 ≤ q1 * 2 ^ s then float.Inf negative
    else float.Finite negative (q1 * 2 ^ s)

/-- The C++ `operator-` on two `float`s (IEEE-754 subtraction, round to nearest
even). -/
def float.sub : float → float → float
  | float.NaN, _ => float.NaN
  | _, float.NaN => float.NaN
  | float.Inf a, float.Inf b => if a = b then float.NaN else float.Inf a
  | float.Inf a, float.Finite _ _ => float.Inf a
  | float.Finite _ _, float.Inf b => float.Inf (!b)
  | float.Finite s k, float.Finite t l =>
    let z := float.toInt (float.Finite s k) - float.toInt (float.Finite t l)
    if z = 0 then float.Finite (s && !t) 0 else float.round (decide (z < 0)) z.natAbs

/-- The C++ unary minus on `float`. -/
def float.neg : float → float
  | float.NaN => float.NaN
  | float.Inf a => float.Inf (!a)
  | float.Finite s k => float.Finite (!s) k

/-- The `float` literal of a natural number, such as `100.0f`. -/
def float.ofNat (n : Nat) : float := float.round false (n * 2 ^ 149)

instance : LT float := ⟨fun a b => float.lt a b = true⟩

instance : LE float := ⟨fun a b => float.le a b = true⟩

instance (a b : float) : Decidable (a < b) :=
  inferInstanceAs (Decidable (float.lt a b = true))

instance (a b : float) : Decidable (a ≤ b) :=
  inferInstanceAs (Decidable (float.le a b = true))

instance : Sub float := ⟨float.sub⟩

instance : Neg float := ⟨float.neg⟩

instance (n : Nat) : OfNat float n := ⟨float.ofNat n⟩

/-- Component type of the engine's `FVector` and `FRotator`, kept exact. -/
abbrev FReal : Type := ℚ

/-- Engine enum `ENetRole`. -/
inductive ENetRole
  | ROLE_None
  | ROLE_SimulatedProxy
  | ROLE_AutonomousProxy
  | ROLE_Authority
  deriving DecidableEq, Repr

/-- Values of `TSubclassOf<AThirdPersonMPProjectile>`: empty, the native class
itself, or some class derived from it (a Blueprint or native subclass). -/
inductive UClass
  | null
  | AThirdPersonMPProjectile_StaticClass
  | derived (id : Nat)
  deriving DecidableEq, Repr

/-- Engine type `FVector`. -/
structure FVector where
  X : FReal
  Y : FReal
  Z : FReal
  deriving DecidableEq, Repr

/-- Engine type `FRotator`. -/
structure FRotator where
  Pitch : FReal
  Yaw : FReal
  Roll : FReal
  deriving DecidableEq, Repr

/-- Componentwise `FVector + FVector`. -/
def FVector.add (a b : FVector) : FVector :=
  ⟨a.X + b.X, a.Y + b.Y, a.Z + b.Z⟩

/-- Scaling `FVector * float`. -/
def FVector.scale (a : FVector) (s : FReal) : FVector :=
  ⟨a.X * s, a.Y * s, a.Z * s⟩

/-- The two colours the class prints with. -/
inductive FColor
  | Blue
  | Red
  deriving DecidableEq, Repr

/-- The three formatted strings `OnHealthUpdate` builds. -/
inductive DebugMessage
  /-- Text "You now have %f health remaining." -/
  | YouNowHave (health : float)
  /-- Text "You have been killed." -/
  | YouHaveBeenKilled
  /-- Text "%s now has %f health remaining." with the actor's name -/
  | NowHas (actorName : Nat) (health : float)
  deriving DecidableEq, Repr

/-- Member functions bound to input actions by `SetupPlayerInputComponent`. -/
inductive Handler
  | StartFire
  | Jump
  | StopJumping
  | Move
  | Look
  deriving DecidableEq, Repr

/-- Member functions handed to the timer manager; the class registers only
`&AUnrealEngineCharacter::StopFire`. -/
inductive TimerDelegate
  | StopFire
  deriving DecidableEq, Repr

/-- The two `UE_LOG` lines of the class. -/
inductive LogLine
  /-- Line `UE_LOG(LogTemp, Warning, "StartFire called!")` -/
  | StartFireCalled
  /-- Line `UE_LOG(LogTemplateCharacter, Error, "... Failed to find an Enhanced Input component! ...")` -/
  | FailedToFindEnhancedInput
  deriving DecidableEq, Repr

/-- Engine type `FActorSpawnParameters`, the two members the class sets. -/
structure FActorSpawnParameters where
  Instigator : Option Nat
  Owner : Option Nat
  deriving DecidableEq, Repr

/-- One observable call made by a method of the class. -/
inductive Effect
  /-- Control entered `OnHealthUpdate` -/
  | OnHealthUpdate
  /-- Call `GEngine->AddOnScreenDebugMessage(Key, TimeToDisplay, Color, Message)` -/
  | AddOnScreenDebugMessage (Key : Int) (TimeToDisplay : float) (Color : FColor) (Message : DebugMessage)
  /-- Call `GetTimerManager().SetTimer(FiringTimer, this, Callback, Rate, bLoop)` -/
  | SetTimer (Callback : TimerDelegate) (Rate : float) (bLoop : Bool)
  /-- A `UE_LOG` line -/
  | UE_LOG (line : LogLine)
  /-- The server RPC `HandleFire()` was invoked -/
  | HandleFire
  /-- Call `GetWorld()->SpawnActor(Class, Location, Rotation, Params)` -/
  | SpawnActor (Class : UClass) (Location : FVector) (Rotation : FRotator) (Params : FActorSpawnParameters)
  /-- Call `Subsystem->AddMappingContext(Context, Priority)` -/
  | AddMappingContext (Context : Nat) (Priority : Int)
  deriving DecidableEq, Repr

/-- A timer pending in the engine's timer manager under the handle `FiringTimer`. -/
structure FTimerData where
  Remaining : float
  Rate : float
  bLoop : Bool
  Callback : TimerDelegate
  deriving DecidableEq, Repr

/-- What the class reads of its `Controller`. -/
structure AController where
  /-- Whether `Cast<APlayerController>(GetController())` succeeds -/
  isPlayerController : Bool
  /-- Whether `ULocalPlayer::GetSubsystem<UEnhancedInputLocalPlayerSubsystem>(...)` is not null -/
  hasEnhancedInputSubsystem : Bool
  deriving DecidableEq, Repr

/-- The character: engine state read by the class, then the fields declared in
`UnrealEngineCharacter.h`, then the trace of engine calls made so far. -/
structure AUnrealEngineCharacter where
  /-- Value of `GetLocalRole()` -/
  LocalRole : ENetRole
  /-- Value of `IsLocallyControlled()` -/
  LocallyControlled : Bool
  /-- Value of `GetFName()` -/
  FName : Nat
  /-- Identity of `this` -/
  Self : Nat
  /-- Value of `GetInstigator()` -/
  Instigator : Option Nat
  /-- Value of `GetActorLocation()` -/
  ActorLocation : FVector
  /-- Value of `GetActorRotation()` -/
  ActorRotation : FRotator
  /-- Value of `GetActorRotation().Vector()` -/
  ActorForwardVector : FVector
  /-- Value of `GetActorUpVector()` -/
  ActorUpVector : FVector
  /-- Value of `GetController()` -/
  Controller : Option AController
  DefaultMappingContext : Nat
  JumpAction : Nat
  MoveAction : Nat
  LookAction : Nat
  MaxHealth : float
  CurrentHealth : float
  ProjectileClass : UClass
  FireRate : float
  bIsFiringWeapon : Bool
  FiringTimer : Option FTimerData
  Trace : List Effect
  deriving DecidableEq, Repr

/-- Engine state of a character, as the constructor finds it. -/
structure EngineState where
  LocalRole : ENetRole
  LocallyControlled : Bool
  FName : Nat
  Self : Nat
  Instigator : Option Nat
  ActorLocation : FVector
  ActorRotation : FRotator
  ActorForwardVector : FVector
  ActorUpVector : FVector
  Controller : Option AController
  DefaultMappingContext : Nat
  JumpAction : Nat
  MoveAction : Nat
  LookAction : Nat
  deriving DecidableEq, Repr

/-- Method `AUnrealEngineCharacter::AUnrealEngineCharacter()`: the health and firing
fields as the constructor initialises them (lines 59-67); `0.25f` is
`2^147 * 2^-149`. -/
def AUnrealEngineCharacter.construct (e : EngineState) : AUnrealEngineCharacter :=
  let MaxHealth : float := 100
  { LocalRole := e.LocalRole
    LocallyControlled := e.LocallyControlled
    FName := e.FName
    Self := e.Self
    Instigator := e.Instigator
    ActorLocation := e.ActorLocation
    ActorRotation := e.ActorRotation
    ActorForwardVector := e.ActorForwardVector
    ActorUpVector := e.ActorUpVector
    Controller := e.Controller
    DefaultMappingContext := e.DefaultMappingContext
    JumpAction := e.JumpAction
    MoveAction := e.MoveAction
    LookAction := e.LookAction
    MaxHealth := MaxHealth
    CurrentHealth := MaxHealth
    ProjectileClass := UClass.AThirdPersonMPProjectile_StaticClass
    FireRate := float.Finite false (2 ^ 147)
    bIsFiringWeapon := false
    FiringTimer := none
    Trace := [] }

/-- Modelled from the spec: the engine's `FMath::Clamp(X, Min, Max)`, which is
not part of this repository; it yields `Min` when `X < Min`, otherwise `X` when
`X < Max`, otherwise `Max`. -/
def FMath.Clamp (X Min Max : float) : float :=
  if X < Min then Min else if X < Max then X else Max

/-- Appends engine calls to the trace. -/
def AUnrealEngineCharacter.emit (c : AUnrealEngineCharacter) (es : List Effect) :
    AUnrealEngineCharacter :=
  { c with Trace := c.Trace ++ es }

/-- Method `AUnrealEngineCharacter::OnHealthUpdate` (lines 158-184). -/
def OnHealthUpdate (c : AUnrealEngineCharacter) : AUnrealEngineCharacter :=
  let c := c.emit [Effect.OnHealthUpdate]
  let c :=
    if c.LocallyControlled then
      let c := c.emit [Effect.AddOnScreenDebugMessage (-1) 5 FColor.Blue
        (DebugMessage.YouNowHave c.CurrentHealth)]
      if c.CurrentHealth ≤ 0 then
        c.emit [Effect.AddOnScreenDebugMessage (-1) 5 FColor.Red DebugMessage.YouHaveBeenKilled]
      else c
    else c
  if c.LocalRole = ENetRole.ROLE_Authority then
    c.emit [Effect.AddOnScreenDebugMessage (-1) 5 FColor.Blue
      (DebugMessage.NowHas c.FName c.CurrentHealth)]
  else c

/-- Method `AUnrealEngineCharacter::OnRep_CurrentHealth` (lines 186-189). -/
def OnRep_CurrentHealth (c : AUnrealEngineCharacter) : AUnrealEngineCharacter :=
  OnHealthUpdate c

/-- Method `AUnrealEngineCharacter::SetCurrentHealth` (lines 190-197). -/
def SetCurrentHealth (c : AUnrealEngineCharacter) (healthValue : float) :
    AUnrealEngineCharacter :=
  if c.LocalRole = ENetRole.ROLE_Authority then
    let c := { c with CurrentHealth := FMath.Clamp healthValue 0 c.MaxHealth }
    OnHealthUpdate c
  else c

/-- Method `AUnrealEngineCharacter::TakeDamage` (lines 198-203); the damage event,
instigator and causer arguments are not read. Returns the new state and the
returned `float`. -/
def TakeDamage (c : AUnrealEngineCharacter) (DamageTaken : float) :
    AUnrealEngineCharacter × float :=
  let damageApplied : float := c.CurrentHealth - DamageTaken
  let c := SetCurrentHealth c damageApplied
  (c, damageApplied)

/-- Method `AUnrealEngineCharacter::StopFire` (lines 219-222). -/
def StopFire (c : AUnrealEngineCharacter) : AUnrealEngineCharacter :=
  { c with bIsFiringWeapon := false }

/-- Runs a registered timer callback on the character. -/
def TimerDelegate.invoke : TimerDelegate → AUnrealEngineCharacter → AUnrealEngineCharacter
  | TimerDelegate.StopFire, c => UnrealEngineCharacter.StopFire c

/-- Modelled from the spec: the engine call
`GetTimerManager().SetTimer(FiringTimer, this, Callback, Rate, bLoop)`, which is
not part of this repository; it replaces whatever timer the handle
`FiringTimer` held by one that expires `Rate` seconds from now, for every
`Rate` (the spec names no rate for which the timer is not armed). -/
def SetTimer (c : AUnrealEngineCharacter) (Callback : TimerDelegate) (Rate : float)
    (bLoop : Bool) : AUnrealEngineCharacter :=
  { c with
    FiringTimer := some { Remaining := Rate, Rate := Rate, bLoop := bLoop, Callback := Callback }
    Trace := c.Trace ++ [Effect.SetTimer Callback Rate bLoop] }

/-- Modelled from the spec: the engine's timer manager letting `DeltaTime`
seconds pass. A pending timer whose remaining delay has elapsed runs its
callback; a one-shot timer is then gone, a looping one is armed again. -/
def TimerManager_Tick (c : AUnrealEngineCharacter) (DeltaTime : float) :
    AUnrealEngineCharacter :=
  match c.FiringTimer with
  | none => c
  | some t =>
    if t.Remaining ≤ DeltaTime then
      let c := { c with
        FiringTimer := if t.bLoop then some { t with Remaining := t.Rate } else none }
      t.Callback.invoke c
    else
      { c with FiringTimer := some { t with Remaining := t.Remaining - DeltaTime } }

/-- Method `AUnrealEngineCharacter::HandleFire_Implementation` (lines 224-235). The
engine template `SpawnActor<AThirdPersonMPProjectile>(Location, Rotation, Params)`
spawns `AThirdPersonMPProjectile::StaticClass()`. -/
def HandleFire_Implementation (c : AUnrealEngineCharacter) : AUnrealEngineCharacter :=
  let spawnLocation : FVector :=
    (c.ActorLocation.add (c.ActorForwardVector.scale 100)).add (c.ActorUpVector.scale 50)
  let spawnRotation : FRotator := c.ActorRotation
  let spawnParameters : FActorSpawnParameters :=
    { Instigator := c.Instigator, Owner := some c.Self }
  c.emit [Effect.SpawnActor UClass.AThirdPersonMPProjectile_StaticClass
    spawnLocation spawnRotation spawnParameters]

/-- Modelled from the spec: the generated thunk of the `UFUNCTION(Server, Reliable)`
`HandleFire` (in `UnrealEngineCharacter.generated.h`, not under src). The call
is a request to the server; on the instance that has authority the body
`HandleFire_Implementation` runs, elsewhere nothing happens locally. -/
def HandleFire (c : AUnrealEngineCharacter) : AUnrealEngineCharacter :=
  let c := c.emit [Effect.HandleFire]
  if c.LocalRole = ENetRole.ROLE_Authority then HandleFire_Implementation c else c

/-- Method `AUnrealEngineCharacter::StartFire` (lines 207-217). -/
def StartFire (c : AUnrealEngineCharacter) : AUnrealEngineCharacter :=
  if !c.bIsFiringWeapon then
    let c := { c with bIsFiringWeapon := true }
    let c := SetTimer c TimerDelegate.StopFire c.FireRate false
    let c := c.emit [Effect.UE_LOG LogLine.StartFireCalled]
    HandleFire c
  else c

/-- Engine enum `EInputEvent` (legacy input). -/
inductive EInputEvent
  | IE_Pressed
  | IE_Released
  | IE_Repeat
  | IE_DoubleClick
  | IE_Axis
  deriving DecidableEq, Repr

/-- Engine enum `ETriggerEvent` (enhanced input). -/
inductive ETriggerEvent
  | None
  | Triggered
  | Started
  | Ongoing
  | Canceled
  | Completed
  deriving DecidableEq, Repr

/-- Names of legacy action mappings; the class uses only "Fire". -/
inductive FActionName
  | Fire
  deriving DecidableEq, Repr

/-- One binding registered on an input component. -/
inductive FInputBinding
  /-- Legacy `UInputComponent::BindAction(ActionName, KeyEvent, this, Func)` -/
  | Action (ActionName : FActionName) (KeyEvent : EInputEvent) (Func : Handler)
  /-- Enhanced `UEnhancedInputComponent::BindAction(Action, TriggerEvent, this, Func)` -/
  | EnhancedAction (Action : Nat) (TriggerEvent : ETriggerEvent) (Func : Handler)
  deriving DecidableEq, Repr

/-- The object behind `UInputComponent* PlayerInputComponent`. -/
structure UInputComponent where
  /-- Whether `Cast<UEnhancedInputComponent>(PlayerInputComponent)` is not null -/
  isEnhancedInputComponent : Bool
  Bindings : List FInputBinding
  deriving DecidableEq, Repr

/-- Registers one binding on the component. -/
def UInputComponent.bind (p : UInputComponent) (b : FInputBinding) : UInputComponent :=
  { p with Bindings := p.Bindings ++ [b] }

/-- Method `AUnrealEngineCharacter::SetupPlayerInputComponent` (lines 79-110). -/
def SetupPlayerInputComponent (c : AUnrealEngineCharacter)
    (PlayerInputComponent : UInputComponent) : AUnrealEngineCharacter × UInputComponent :=
  let p := PlayerInputComponent.bind
    (FInputBinding.Action FActionName.Fire EInputEvent.IE_Pressed Handler.StartFire)
  let c :=
    match c.Controller with
    | some PlayerController =>
      if PlayerController.isPlayerController then
        if PlayerController.hasEnhancedInputSubsystem then
          c.emit [Effect.AddMappingContext c.DefaultMappingContext 0]
        else c
      else c
    | none => c
  if p.isEnhancedInputComponent then
    let p := p.bind (FInputBinding.EnhancedAction c.JumpAction ETriggerEvent.Started Handler.Jump)
    let p := p.bind
      (FInputBinding.EnhancedAction c.JumpAction ETriggerEvent.Completed Handler.StopJumping)
    let p := p.bind (FInputBinding.EnhancedAction c.MoveAction ETriggerEvent.Triggered Handler.Move)
    let p := p.bind (FInputBinding.EnhancedAction c.LookAction ETriggerEvent.Triggered Handler.Look)
    (c, p)
  else
    (c.emit [Effect.UE_LOG LogLine.FailedToFindEnhancedInput], p)

/-- A concrete engine state used in examples: an actor at the origin facing
along X, with a player controller and an enhanced-input subsystem. -/
def sampleEngine (role : ENetRole) : EngineState :=
  { LocalRole := role
    LocallyControlled := true
    FName := 7
    Self := 1
    Instigator := some 1
    ActorLocation := ⟨0, 0, 0⟩
    ActorRotation := ⟨0, 0, 0⟩
    ActorForwardVector := ⟨1, 0, 0⟩
    ActorUpVector := ⟨0, 0, 1⟩
    Controller := some { isPlayerController := true, hasEnhancedInputSubsystem := true }
    DefaultMappingContext := 10
    JumpAction := 11
    MoveAction := 12
    LookAction := 13 }

/-- A freshly constructed character with the given role. -/
def sample (role : ENetRole) : AUnrealEngineCharacter :=
  AUnrealEngineCharacter.construct (sampleEngine role)

/-- One call on the character made from outside the class: by game code, by
the input system, by the replication layer or by the timer manager. The last
constructor is the engine changing the network role between calls. -/
inductive Call
  | SetCurrentHealth (healthValue : float)
  | TakeDamage (DamageTaken : float)
  | StartFire
  | StopFire
  | HandleFire
  | HandleFire_Implementation
  | OnRep_CurrentHealth
  | OnHealthUpdate
  | TimerManager_Tick (DeltaTime : float)
  | SetLocalRole (role : ENetRole)
  deriving DecidableEq, Repr

/-- Performs one call. -/
def Call.apply : Call → AUnrealEngineCharacter → AUnrealEngineCharacter
  | Call.SetCurrentHealth v, c => UnrealEngineCharacter.SetCurrentHealth c v
  | Call.TakeDamage d, c => (UnrealEngineCharacter.TakeDamage c d).1
  | Call.StartFire, c => UnrealEngineCharacter.StartFire c
  | Call.StopFire, c => UnrealEngineCharacter.StopFire c
  | Call.HandleFire, c => UnrealEngineCharacter.HandleFire c
  | Call.HandleFire_Implementation, c => UnrealEngineCharacter.HandleFire_Implementation c
  | Call.OnRep_CurrentHealth, c => UnrealEngineCharacter.OnRep_CurrentHealth c
  | Call.OnHealthUpdate, c => UnrealEngineCharacter.OnHealthUpdate c
  | Call.TimerManager_Tick dt, c => UnrealEngineCharacter.TimerManager_Tick c dt
  | Call.SetLocalRole r, c => { c with LocalRole := r }

/-- Performs a finite sequence of calls, first to last. -/
def runCalls (calls : List Call) (c : AUnrealEngineCharacter) : AUnrealEngineCharacter :=
  calls.foldl (fun s k => k.apply s) c

/-! ## States and abbreviations used in the statements -/

/-- The literal `0.1f`: `13421773 * 2^-27`. -/
def tenth : float := float.Finite false (13421773 * 2 ^ 122)

/-- The clamp of the claims over exact numbers: `lo` if `x < lo`, otherwise `x`
if `x < hi`, otherwise `hi`. -/
def clampExact (x lo hi : ℚ) : ℚ :=
  if x < lo then lo else if x < hi then x else hi

/-- The state reached from a fresh authoritative character by 50 points of damage. -/
def halfHealth : AUnrealEngineCharacter :=
  (TakeDamage (sample ENetRole.ROLE_Authority) 50).1

/-- What the RPC does locally after recording its request: with authority the
spawn request of `HandleFire_Implementation`, otherwise nothing. -/
def rpcEffects (c : AUnrealEngineCharacter) : List Effect :=
  if c.LocalRole = ENetRole.ROLE_Authority then
    [Effect.SpawnActor UClass.AThirdPersonMPProjectile_StaticClass
      ((c.ActorLocation.add (c.ActorForwardVector.scale 100)).add (c.ActorUpVector.scale 50))
      c.ActorRotation { Instigator := c.Instigator, Owner := some c.Self }]
  else []

/-- The health bounds. -/
def HealthInvariant (c : AUnrealEngineCharacter) : Prop :=
  0 ≤ c.CurrentHealth ∧ c.CurrentHealth ≤ c.MaxHealth

/-- A character whose `ProjectileClass` default was set to a derived class. -/
def customProjectile : AUnrealEngineCharacter :=
  { sample ENetRole.ROLE_Authority with ProjectileClass := UClass.derived 1 }

/-! ## Order on `float` -/

theorem float.lt_iff (a b : float) : a < b ↔ float.lt a b = true := Iff.rfl

theorem float.le_iff (a b : float) : a ≤ b ↔ float.le a b = true := Iff.rfl

theorem float.zero_def : (0 : float) = float.Finite false 0 := rfl

theorem float.lt_asymm (a b : float) (h : a < b) : ¬ b < a := by
  rcases a with _ | (_ | _) | ⟨(_ | _), k⟩ <;> rcases b with _ | (_ | _) | ⟨(_ | _), l⟩ <;>
    simp only [float.lt_iff, float.le_iff, float.le, float.lt, float.eq, float.toInt,
      decide_eq_true_eq, decide_eq_false_iff_not, Bool.and_true, Bool.and_false, Bool.not_true,
      Bool.not_false, Bool.false_eq_true, Bool.not_eq_true', not_false_eq_true,
      not_true_eq_false, beq_iff_eq, ne_eq, reduceCtorEq, float.Inf.injEq, true_and, and_true,
      false_and, and_false, not_and, not_not, imp_false, false_implies, implies_true, true_implies] at h ⊢ <;>
    omega

theorem float.le_of_lt (a b : float) (h : a < b) : a ≤ b := by
  rcases a with _ | (_ | _) | ⟨(_ | _), k⟩ <;> rcases b with _ | (_ | _) | ⟨(_ | _), l⟩ <;>
    simp only [float.lt_iff, float.le_iff, float.le, float.lt, float.eq, float.toInt,
      decide_eq_true_eq, decide_eq_false_iff_not, Bool.and_true, Bool.and_false, Bool.not_true,
      Bool.not_false, Bool.false_eq_true, Bool.not_eq_true', not_false_eq_true,
      not_true_eq_false, beq_iff_eq, ne_eq, reduceCtorEq, float.Inf.injEq, true_and, and_true,
      false_and, and_false, not_and, not_not, imp_false, false_implies, implies_true, true_implies] at h ⊢ <;>
    omega

theorem float.not_le_of_lt (a b : float) (h : a < b) : ¬ b ≤ a := by
  rcases a with _ | (_ | _) | ⟨(_ | _), k⟩ <;> rcases b with _ | (_ | _) | ⟨(_ | _), l⟩ <;>
    simp only [float.lt_iff, float.le_iff, float.le, float.lt, float.eq, float.toInt,
      decide_eq_true_eq, decide_eq_false_iff_not, Bool.and_true, Bool.and_false, Bool.not_true,
      Bool.not_false, Bool.false_eq_true, Bool.not_eq_true', not_false_eq_true,
      not_true_eq_false, beq_iff_eq, ne_eq, reduceCtorEq, float.Inf.injEq, true_and, and_true,
      false_and, and_false, not_and, not_not, imp_false, false_implies, implies_true, true_implies] at h ⊢ <;>
    omega

theorem float.not_lt_of_le (a b : float) (h : a ≤ b) : ¬ b < a := by
  intro hlt
  exact float.not_le_of_lt b a hlt h

theorem float.le_trans (a b c : float) (h : a ≤ b) (h2 : b ≤ c) : a ≤ c := by
  rcases a with _ | (_ | _) | ⟨(_ | _), k⟩ <;> rcases b with _ | (_ | _) | ⟨(_ | _), l⟩ <;> rcases c with _ | (_ | _) | ⟨(_ | _), m⟩ <;>
    simp only [float.lt_iff, float.le_iff, float.le, float.lt, float.eq, float.toInt,
      decide_eq_true_eq, decide_eq_false_iff_not, Bool.and_true, Bool.and_false, Bool.not_true,
      Bool.not_false, Bool.false_eq_true, Bool.not_eq_true', not_false_eq_true,
      not_true_eq_false, beq_iff_eq, ne_eq, reduceCtorEq, float.Inf.injEq, true_and, and_true,
      false_and, and_false, not_and, not_not, imp_false, false_implies, implies_true, true_implies] at h h2 ⊢ <;>
    omega

theorem float.lt_ne_NaN (a b : float) (h : a < b) : a ≠ float.NaN ∧ b ≠ float.NaN := by
  rcases a with _ | (_ | _) | ⟨(_ | _), k⟩ <;> rcases b with _ | (_ | _) | ⟨(_ | _), l⟩ <;>
    simp only [float.lt_iff, float.le_iff, float.le, float.lt, float.eq, float.toInt,
      decide_eq_true_eq, decide_eq_false_iff_not, Bool.and_true, Bool.and_false, Bool.not_true,
      Bool.not_false, Bool.false_eq_true, Bool.not_eq_true', not_false_eq_true,
      not_true_eq_false, beq_iff_eq, ne_eq, reduceCtorEq, float.Inf.injEq, true_and, and_true,
      false_and, and_false, not_and, not_not, imp_false, false_implies, implies_true, true_implies] at h ⊢

theorem float.le_ne_NaN (a b : float) (h : a ≤ b) : a ≠ float.NaN ∧ b ≠ float.NaN := by
  rcases a with _ | (_ | _) | ⟨(_ | _), k⟩ <;> rcases b with _ | (_ | _) | ⟨(_ | _), l⟩ <;>
    simp only [float.lt_iff, float.le_iff, float.le, float.lt, float.eq, float.toInt,
      decide_eq_true_eq, decide_eq_false_iff_not, Bool.and_true, Bool.and_false, Bool.not_true,
      Bool.not_false, Bool.false_eq_true, Bool.not_eq_true', not_false_eq_true,
      not_true_eq_false, beq_iff_eq, ne_eq, reduceCtorEq, float.Inf.injEq, true_and, and_true,
      false_and, and_false, not_and, not_not, imp_false, false_implies, implies_true, true_implies] at h ⊢

theorem float.le_refl (a : float) (h : a ≠ float.NaN) : a ≤ a := by
  rcases a with _ | (_ | _) | ⟨(_ | _), k⟩ <;>
    simp only [float.lt_iff, float.le_iff, float.le, float.lt, float.eq, float.toInt,
      decide_eq_true_eq, decide_eq_false_iff_not, Bool.and_true, Bool.and_false, Bool.not_true,
      Bool.not_false, Bool.false_eq_true, Bool.not_eq_true', not_false_eq_true,
      not_true_eq_false, beq_iff_eq, ne_eq, reduceCtorEq, float.Inf.injEq, true_and, and_true,
      false_and, and_false, not_and, not_not, imp_false, false_implies, implies_true, true_implies] at h ⊢ <;>
    omega

theorem float.le_of_not_lt (a b : float) (ha : a ≠ float.NaN) (hb : b ≠ float.NaN)
    (h : ¬ a < b) : b ≤ a := by
  rcases a with _ | (_ | _) | ⟨(_ | _), k⟩ <;> rcases b with _ | (_ | _) | ⟨(_ | _), l⟩ <;>
    simp only [float.lt_iff, float.le_iff, float.le, float.lt, float.eq, float.toInt,
      decide_eq_true_eq, decide_eq_false_iff_not, Bool.and_true, Bool.and_false, Bool.not_true,
      Bool.not_false, Bool.false_eq_true, Bool.not_eq_true', not_false_eq_true,
      not_true_eq_false, beq_iff_eq, ne_eq, reduceCtorEq, float.Inf.injEq, true_and, and_true,
      false_and, and_false, not_and, not_not, imp_false, false_implies, implies_true, true_implies] at ha hb h ⊢ <;>
    omega

theorem float.eq_iff (a b : float) : float.eq a b = true ↔ a ≤ b ∧ ¬ a < b := by
  rcases a with _ | (_ | _) | ⟨(_ | _), k⟩ <;> rcases b with _ | (_ | _) | ⟨(_ | _), l⟩ <;>
    simp only [float.lt_iff, float.le_iff, float.le, float.lt, float.eq, float.toInt,
      decide_eq_true_eq, decide_eq_false_iff_not, Bool.and_true, Bool.and_false, Bool.not_true,
      Bool.not_false, Bool.false_eq_true, Bool.not_eq_true', not_false_eq_true,
      not_true_eq_false, beq_iff_eq, ne_eq, reduceCtorEq, float.Inf.injEq, true_and, and_true,
      false_and, and_false, not_and, not_not, imp_false, false_implies, implies_true, true_implies] <;>
    omega
/-! ## Rounding -/

theorem float.bitLengthAux_pos (fuel n : Nat) (hn : n ≠ 0) (hf : n ≤ fuel) :
    float.bitLengthAux fuel n = float.bitLengthAux (fuel - 1) (n / 2) + 1 := by
  cases fuel with
  | zero => omega
  | succ f => simp [float.bitLengthAux, hn]

/-- A positive number is at least the power of two below its digit count. -/
theorem float.pow_bitLengthAux_le (fuel : Nat) :
    ∀ n : Nat, n ≠ 0 → n ≤ fuel → 2 ^ (float.bitLengthAux fuel n - 1) ≤ n := by
  induction fuel with
  | zero => intro n hn hf; omega
  | succ f ih =>
    intro n hn hf
    rw [float.bitLengthAux_pos (f + 1) n hn hf]
    simp only [Nat.add_sub_cancel]
    by_cases h2 : n / 2 = 0
    · rw [h2]
      have : float.bitLengthAux f 0 = 0 := by
        cases f <;> simp [float.bitLengthAux]
      rw [this]
      simp
      omega
    · have hf2 : n / 2 ≤ f := by omega
      have h := ih (n / 2) h2 hf2
      have hpos : float.bitLengthAux f (n / 2) =
          (float.bitLengthAux f (n / 2) - 1) + 1 := by
        rw [float.bitLengthAux_pos f (n / 2) h2 hf2]
        simp
      rw [hpos, Nat.pow_succ]
      omega

theorem float.pow_bitLength_le (n : Nat) (hn : n ≠ 0) : 2 ^ (float.bitLength n - 1) ≤ n :=
  float.pow_bitLengthAux_le n n hn (Nat.le_refl n)

/-- The magnitude the rounding keeps is positive for a positive input. -/
theorem float.round_shift_pos (n : Nat) (hL : ¬ float.bitLength n ≤ 24) :
    0 < n / 2 ^ (float.bitLength n - 24) := by
  have hn : n ≠ 0 := by
    intro h
    apply hL
    rw [h]
    simp [float.bitLength, float.bitLengthAux]
  have h1 := float.pow_bitLength_le n hn
  have h2 : 2 ^ (float.bitLength n - 24) ≤ 2 ^ (float.bitLength n - 1) :=
    Nat.pow_le_pow_right (by norm_num) (by omega)
  exact Nat.div_pos (Nat.le_trans h2 h1) (Nat.pow_pos (by norm_num))

/-- The rounding of a magnitude is a finite value or an infinity of the given sign. -/
theorem float.round_cases (negative : Bool) (n : Nat) :
    float.round negative n = float.Inf negative ∨
      ∃ k, float.round negative n = float.Finite negative k ∧ (0 < n → 0 < k) := by
  unfold float.round
  simp only
  split_ifs with hL hq hov
  · exact Or.inr ⟨n, rfl, fun h => h⟩
  · exact Or.inl rfl
  · refine Or.inr ⟨_, rfl, fun _ => ?_⟩
    have hq0 := float.round_shift_pos n hL
    exact Nat.mul_pos (by omega) (Nat.pow_pos (by norm_num))
  · exact Or.inl rfl
  · refine Or.inr ⟨_, rfl, fun _ => ?_⟩
    have hq0 := float.round_shift_pos n hL
    exact Nat.mul_pos hq0 (Nat.pow_pos (by norm_num))

theorem float.zero_le_round (n : Nat) : (0 : float) ≤ float.round false n := by
  rcases float.round_cases false n with h | ⟨k, h, _⟩ <;> rw [h, float.zero_def]
  · rfl
  · simp only [float.le_iff, float.le, float.lt, float.toInt, decide_eq_true_eq,
      Bool.not_eq_true', decide_eq_false_iff_not]
    omega

theorem float.round_lt_zero (n : Nat) (hn : 0 < n) : float.round true n < 0 := by
  rcases float.round_cases true n with h | ⟨k, h, hk⟩ <;> rw [h, float.zero_def]
  · rfl
  · have := hk hn
    simp only [float.lt_iff, float.lt, float.toInt, decide_eq_true_eq]
    omega

/-- A magnitude that is itself a binary32 value is left as it is. -/
theorem float.round_exact (negative : Bool) (n : Nat)
    (h : float.isBinary32 (float.Finite negative n) = true) :
    float.round negative n = float.Finite negative n := by
  simp only [float.isBinary32, Bool.and_eq_true, Bool.or_eq_true, decide_eq_true_eq] at h
  obtain ⟨hr, hb⟩ := h
  unfold float.round
  simp only
  by_cases hL : float.bitLength n ≤ 24
  · rw [if_pos hL]
  · rw [if_neg hL]
    have hm : n % 2 ^ (float.bitLength n - 24) = 0 := by
      rcases hb with hb | hb
      · exact absurd hb hL
      · exact hb
    have hpos : 0 < 2 ^ (float.bitLength n - 24 - 1) := Nat.pow_pos (by norm_num)
    have hq : n / 2 ^ (float.bitLength n - 24) * 2 ^ (float.bitLength n - 24) = n :=
      Nat.div_mul_cancel (Nat.dvd_of_mod_eq_zero hm)
    rw [hm]
    have hc : ¬ (2 ^ (float.bitLength n - 24 - 1) < 0 ∨
        (0 = 2 ^ (float.bitLength n - 24 - 1) ∧
          n / 2 ^ (float.bitLength n - 24) % 2 = 1)) := by
      intro hc
      rcases hc with hc | ⟨hc, _⟩ <;> omega
    rw [if_neg hc, hq, if_neg (by omega)]
/-! ## Health -/

@[simp]
theorem emit_LocalRole (c : AUnrealEngineCharacter) (es : List Effect) :
    (c.emit es).LocalRole = c.LocalRole := rfl

@[simp]
theorem emit_LocallyControlled (c : AUnrealEngineCharacter) (es : List Effect) :
    (c.emit es).LocallyControlled = c.LocallyControlled := rfl

@[simp]
theorem emit_MaxHealth (c : AUnrealEngineCharacter) (es : List Effect) :
    (c.emit es).MaxHealth = c.MaxHealth := rfl

@[simp]
theorem emit_CurrentHealth (c : AUnrealEngineCharacter) (es : List Effect) :
    (c.emit es).CurrentHealth = c.CurrentHealth := rfl

@[simp]
theorem emit_FName (c : AUnrealEngineCharacter) (es : List Effect) :
    (c.emit es).FName = c.FName := rfl

@[simp]
theorem emit_ProjectileClass (c : AUnrealEngineCharacter) (es : List Effect) :
    (c.emit es).ProjectileClass = c.ProjectileClass := rfl

@[simp]
theorem emit_FireRate (c : AUnrealEngineCharacter) (es : List Effect) :
    (c.emit es).FireRate = c.FireRate := rfl

@[simp]
theorem emit_bIsFiringWeapon (c : AUnrealEngineCharacter) (es : List Effect) :
    (c.emit es).bIsFiringWeapon = c.bIsFiringWeapon := rfl

@[simp]
theorem emit_FiringTimer (c : AUnrealEngineCharacter) (es : List Effect) :
    (c.emit es).FiringTimer = c.FiringTimer := rfl

@[simp]
theorem emit_Trace (c : AUnrealEngineCharacter) (es : List Effect) :
    (c.emit es).Trace = c.Trace ++ es := rfl

/-- Two consecutive extensions of the trace are one. -/
theorem emit_emit (c : AUnrealEngineCharacter) (es fs : List Effect) :
    (c.emit es).emit fs = c.emit (es ++ fs) := by
  simp [AUnrealEngineCharacter.emit, List.append_assoc]

/-- `OnHealthUpdate` only extends the trace, starting with its own entry marker. -/
theorem OnHealthUpdate_fields (c : AUnrealEngineCharacter) :
    ∃ es, OnHealthUpdate c = c.emit (Effect.OnHealthUpdate :: es) := by
  unfold OnHealthUpdate
  simp only [emit_LocallyControlled, emit_CurrentHealth, emit_LocalRole, emit_FName]
  split_ifs <;> first
    | exact ⟨_, rfl⟩
    | (simp only [emit_emit]; exact ⟨_, rfl⟩)

/-- With authority the setter stores the clamped value and then runs `OnHealthUpdate`. -/
theorem SetCurrentHealth_fields (c : AUnrealEngineCharacter) (v : float)
    (h : c.LocalRole = ENetRole.ROLE_Authority) :
    ∃ es, SetCurrentHealth c v =
      AUnrealEngineCharacter.emit { c with CurrentHealth := FMath.Clamp v 0 c.MaxHealth }
        (Effect.OnHealthUpdate :: es) := by
  obtain ⟨es, hes⟩ :=
    OnHealthUpdate_fields { c with CurrentHealth := FMath.Clamp v 0 c.MaxHealth }
  refine ⟨es, ?_⟩
  unfold SetCurrentHealth
  rw [if_pos h]
  exact hes

/-- Without authority the setter returns the state it was given. -/
theorem SetCurrentHealth_skip (c : AUnrealEngineCharacter) (v : float)
    (h : c.LocalRole ≠ ENetRole.ROLE_Authority) : SetCurrentHealth c v = c := by
  simp [SetCurrentHealth, h]

/-- The setter never touches `MaxHealth`. -/
theorem SetCurrentHealth_MaxHealth (c : AUnrealEngineCharacter) (v : float) :
    (SetCurrentHealth c v).MaxHealth = c.MaxHealth := by
  by_cases h : c.LocalRole = ENetRole.ROLE_Authority
  · obtain ⟨es, hes⟩ := SetCurrentHealth_fields c v h
    rw [hes]; rfl
  · rw [SetCurrentHealth_skip c v h]

/-- The setter never touches the network role. -/
theorem SetCurrentHealth_LocalRole (c : AUnrealEngineCharacter) (v : float) :
    (SetCurrentHealth c v).LocalRole = c.LocalRole := by
  by_cases h : c.LocalRole = ENetRole.ROLE_Authority
  · obtain ⟨es, hes⟩ := SetCurrentHealth_fields c v h
    rw [hes]; rfl
  · rw [SetCurrentHealth_skip c v h]

/-- With authority the setter stores the clamp. -/
theorem SetCurrentHealth_CurrentHealth (c : AUnrealEngineCharacter) (v : float)
    (h : c.LocalRole = ENetRole.ROLE_Authority) :
    (SetCurrentHealth c v).CurrentHealth = FMath.Clamp v 0 c.MaxHealth := by
  obtain ⟨es, hes⟩ := SetCurrentHealth_fields c v h
  rw [hes]; rfl

/-- The clamp lands in `[Min, Max]` whenever `Min ≤ Max`. -/
theorem FMath.Clamp_mem (X Min Max : float) (h : Min ≤ Max) :
    Min ≤ FMath.Clamp X Min Max ∧ FMath.Clamp X Min Max ≤ Max := by
  have hn := float.le_ne_NaN Min Max h
  unfold FMath.Clamp
  split_ifs with h1 h2
  · exact ⟨float.le_refl Min hn.1, h⟩
  · exact ⟨float.le_of_not_lt X Min (float.lt_ne_NaN X Max h2).1 hn.1 h1,
      float.le_of_lt X Max h2⟩
  · exact ⟨h, float.le_refl Max hn.2⟩

/-- C1: for every health value `v` and every state with network authority,
after `SetCurrentHealth(v)` the field `CurrentHealth` is `0` if `v < 0`,
otherwise `v` if `v < MaxHealth`, otherwise `MaxHealth`; `MaxHealth` is unchanged. -/
theorem SetCurrentHealth_authority_clamps (c : AUnrealEngineCharacter) (v : float)
    (h : c.LocalRole = ENetRole.ROLE_Authority) :
    (SetCurrentHealth c v).CurrentHealth =
        (if v < 0 then 0 else if v < c.MaxHealth then v else c.MaxHealth) ∧
      (SetCurrentHealth c v).MaxHealth = c.MaxHealth := by
  obtain ⟨es, hes⟩ := SetCurrentHealth_fields c v h
  rw [hes]
  exact ⟨rfl, rfl⟩

/-- At a fresh authoritative character, setting health to 150 stores 100. -/
theorem SetCurrentHealth_authority_clamps_witness :
    (sample ENetRole.ROLE_Authority).LocalRole = ENetRole.ROLE_Authority ∧
      (SetCurrentHealth (sample ENetRole.ROLE_Authority) 150).CurrentHealth = 100 ∧
      (SetCurrentHealth (sample ENetRole.ROLE_Authority) 150).MaxHealth = 100 := by
  have h := SetCurrentHealth_authority_clamps (sample ENetRole.ROLE_Authority) 150 rfl
  refine ⟨rfl, ?_, ?_⟩
  · rw [h.1]; decide
  · rw [h.2]; rfl

/-- C2: without network authority `SetCurrentHealth(v)` returns the state
unchanged: `CurrentHealth`, every other field, and the trace of calls (so
`OnHealthUpdate` was not entered). -/
theorem SetCurrentHealth_no_authority_unchanged (c : AUnrealEngineCharacter) (v : float)
    (h : c.LocalRole ≠ ENetRole.ROLE_Authority) :
    SetCurrentHealth c v = c ∧
      (SetCurrentHealth c v).CurrentHealth = c.CurrentHealth ∧
      (SetCurrentHealth c v).Trace = c.Trace := by
  rw [SetCurrentHealth_skip c v h]
  exact ⟨rfl, rfl, rfl⟩

/-- On a fresh autonomous proxy, setting health to 5 changes nothing. -/
theorem SetCurrentHealth_no_authority_unchanged_witness :
    (sample ENetRole.ROLE_AutonomousProxy).LocalRole ≠ ENetRole.ROLE_Authority ∧
      SetCurrentHealth (sample ENetRole.ROLE_AutonomousProxy) 5 =
        sample ENetRole.ROLE_AutonomousProxy ∧
      (SetCurrentHealth (sample ENetRole.ROLE_AutonomousProxy) 5).CurrentHealth = 100 ∧
      (SetCurrentHealth (sample ENetRole.ROLE_AutonomousProxy) 5).Trace = [] := by
  have h := SetCurrentHealth_no_authority_unchanged (sample ENetRole.ROLE_AutonomousProxy) 5
    (by decide)
  refine ⟨by decide, h.1, ?_, ?_⟩
  · rw [h.2.1]; rfl
  · rw [h.2.2]; rfl

/-- Subtraction of finite values is exact whenever the exact difference is a
binary32 value. -/
theorem float.sub_exact (a b f : float) (ha : a.isFinite = true) (hb : b.isFinite = true)
    (hf : f.isFinite = true) (hr : f.isBinary32 = true) (h : f.toRat = a.toRat - b.toRat) :
    (a - b).toRat = a.toRat - b.toRat := by
  rcases a with _ | _ | ⟨s, k⟩ <;> simp only [float.isFinite, Bool.false_eq_true] at ha
  rcases b with _ | _ | ⟨t, l⟩ <;> simp only [float.isFinite, Bool.false_eq_true] at hb
  rcases f with _ | _ | ⟨u, n⟩ <;> simp only [float.isFinite, Bool.false_eq_true] at hf
  have hz : (float.Finite u n).toInt =
      (float.Finite s k).toInt - (float.Finite t l).toInt := by
    have h2 : (((float.Finite u n).toInt : ℤ) : ℚ) =
        (((float.Finite s k).toInt - (float.Finite t l).toInt : ℤ) : ℚ) := by
      simp only [float.toRat] at h
      have hp : (2 : ℚ) ^ 149 ≠ 0 := by positivity
      field_simp at h
      push_cast
      linarith
    exact_mod_cast h2
  rw [← h]
  show (float.sub (float.Finite s k) (float.Finite t l)).toRat = _
  simp only [float.sub]
  rw [← hz]
  by_cases h0 : (float.Finite u n).toInt = 0
  · rw [if_pos h0]
    simp only [float.toRat, h0]
    cases (s && !t) <;> simp [float.toInt]
  · rw [if_neg h0]
    have hfn : float.Finite (decide ((float.Finite u n).toInt < 0))
        (float.Finite u n).toInt.natAbs = float.Finite u n := by
      cases u <;> simp only [float.toInt] at h0 ⊢ <;> congr 1
      all_goals first
        | omega
        | (simp; omega)
    have hre := float.round_exact (decide ((float.Finite u n).toInt < 0))
      (float.Finite u n).toInt.natAbs (by rw [hfn]; exact hr)
    rw [hre, hfn]

/-- C3 as stated fails: at 100 health the damage `0.1f` returns
`13094093/131072`, while the exact difference is `13408351027/134217728`. -/
theorem TakeDamage_return_not_exact_difference :
    (sample ENetRole.ROLE_Authority).CurrentHealth.isBinary32 = true ∧
      tenth.isBinary32 = true ∧
      (sample ENetRole.ROLE_Authority).CurrentHealth.toRat = 100 ∧
      tenth.toRat = 13421773 / 134217728 ∧
      (TakeDamage (sample ENetRole.ROLE_Authority) tenth).2.toRat = 13094093 / 131072 ∧
      (TakeDamage (sample ENetRole.ROLE_Authority) tenth).2.toRat ≠
        (sample ENetRole.ROLE_Authority).CurrentHealth.toRat - tenth.toRat := by
  have hc : (sample ENetRole.ROLE_Authority).CurrentHealth =
      float.Finite false (100 * 2 ^ 149) := by decide
  have hr : (TakeDamage (sample ENetRole.ROLE_Authority) tenth).2 =
      float.Finite false (13094093 * 2 ^ 132) := by decide
  refine ⟨by decide, by decide, ?_, ?_, ?_, ?_⟩
  · rw [hc]; norm_num [float.toRat, float.toInt]
  · norm_num [tenth, float.toRat, float.toInt]
  · rw [hr]; norm_num [float.toRat, float.toInt]
  · rw [hr, hc]; norm_num [tenth, float.toRat, float.toInt]

/-- C3, amended: for every state and damage amount, with or without authority,
`TakeDamage(d, ...)` returns the `float` difference `CurrentHealth_before - d`
as the C++ subtraction computes it, whatever the role and `MaxHealth` are (it
is not clamped); the returned value is the exact difference whenever that is
a binary32 value, and its rounding otherwise. -/
theorem TakeDamage_returns_float_difference (c : AUnrealEngineCharacter) (d : float) :
    (TakeDamage c d).2 = c.CurrentHealth - d ∧
      (∀ (r : ENetRole) (m : float),
        (TakeDamage { c with LocalRole := r, MaxHealth := m } d).2 = c.CurrentHealth - d) ∧
      (∀ f : float, c.CurrentHealth.isFinite = true → d.isFinite = true →
        f.isFinite = true → f.isBinary32 = true →
        f.toRat = c.CurrentHealth.toRat - d.toRat →
        (TakeDamage c d).2.toRat = c.CurrentHealth.toRat - d.toRat) := by
  refine ⟨rfl, fun _ _ => rfl, ?_⟩
  intro f hc hd hf hr h
  exact float.sub_exact c.CurrentHealth d f hc hd hf hr h

/-- At 100 health the damage 30 returns exactly 70. -/
theorem TakeDamage_returns_float_difference_witness :
    (TakeDamage (sample ENetRole.ROLE_Authority) 30).2.toRat =
      (sample ENetRole.ROLE_Authority).CurrentHealth.toRat - (30 : float).toRat :=
  (TakeDamage_returns_float_difference (sample ENetRole.ROLE_Authority) 30).2.2 70
    (by decide) (by decide) (by decide) (by decide)
    (by
      have h1 : (70 : float) = float.Finite false (70 * 2 ^ 149) := by decide
      have h2 : (sample ENetRole.ROLE_Authority).CurrentHealth =
          float.Finite false (100 * 2 ^ 149) := by decide
      have h3 : (30 : float) = float.Finite false (30 * 2 ^ 149) := by decide
      rw [h1, h2, h3]
      norm_num [float.toRat, float.toInt])

/-- C9 as stated fails: at 100 of 100 health with authority, the damage `0.1f`
stores `13094093/131072`, not the clamp of the exact difference
`13408351027/134217728`. -/
theorem TakeDamage_stored_not_exact_clamp :
    (sample ENetRole.ROLE_Authority).LocalRole = ENetRole.ROLE_Authority ∧
      (TakeDamage (sample ENetRole.ROLE_Authority) tenth).1.CurrentHealth.toRat =
        13094093 / 131072 ∧
      clampExact ((sample ENetRole.ROLE_Authority).CurrentHealth.toRat - tenth.toRat) 0
        (sample ENetRole.ROLE_Authority).MaxHealth.toRat = 13408351027 / 134217728 ∧
      (TakeDamage (sample ENetRole.ROLE_Authority) tenth).1.CurrentHealth.toRat ≠
        clampExact ((sample ENetRole.ROLE_Authority).CurrentHealth.toRat - tenth.toRat) 0
          (sample ENetRole.ROLE_Authority).MaxHealth.toRat := by
  have hs : (TakeDamage (sample ENetRole.ROLE_Authority) tenth).1.CurrentHealth =
      float.Finite false (13094093 * 2 ^ 132) := by
    simp only [TakeDamage]
    rw [SetCurrentHealth_CurrentHealth _ _ rfl]
    decide
  have hc : (sample ENetRole.ROLE_Authority).CurrentHealth =
      float.Finite false (100 * 2 ^ 149) := by decide
  have hm : (sample ENetRole.ROLE_Authority).MaxHealth =
      float.Finite false (100 * 2 ^ 149) := by decide
  have he : clampExact ((sample ENetRole.ROLE_Authority).CurrentHealth.toRat - tenth.toRat) 0
      (sample ENetRole.ROLE_Authority).MaxHealth.toRat = 13408351027 / 134217728 := by
    rw [hc, hm]
    norm_num [clampExact, tenth, float.toRat, float.toInt]
  refine ⟨rfl, ?_, he, ?_⟩
  · rw [hs]; norm_num [float.toRat, float.toInt]
  · rw [he, hs]; norm_num [float.toRat, float.toInt]

/-- C9, amended: after `TakeDamage(d, ...)` the stored health is, with
authority, the clamp into `[0, MaxHealth]` of the `float` difference
`CurrentHealth_before - d` as the C++ subtraction computes it, and
`CurrentHealth_before` without authority; `MaxHealth`, `bIsFiringWeapon`,
`FireRate` and the pending timer are unchanged either way. -/
theorem TakeDamage_state_effect (c : AUnrealEngineCharacter) (d : float) :
    (TakeDamage c d).1.CurrentHealth =
        (if c.LocalRole = ENetRole.ROLE_Authority then
          (if c.CurrentHealth - d < 0 then 0
           else if c.CurrentHealth - d < c.MaxHealth then c.CurrentHealth - d
           else c.MaxHealth)
         else c.CurrentHealth) ∧
      (TakeDamage c d).1.MaxHealth = c.MaxHealth ∧
      (TakeDamage c d).1.bIsFiringWeapon = c.bIsFiringWeapon ∧
      (TakeDamage c d).1.FireRate = c.FireRate ∧
      (TakeDamage c d).1.FiringTimer = c.FiringTimer := by
  by_cases h : c.LocalRole = ENetRole.ROLE_Authority
  · obtain ⟨es, hes⟩ := SetCurrentHealth_fields c (c.CurrentHealth - d) h
    rw [if_pos h]
    simp only [TakeDamage, hes]
    exact ⟨rfl, rfl, rfl, rfl, rfl⟩
  · rw [if_neg h]
    simp [TakeDamage, SetCurrentHealth_skip c _ h]

/-- A number is below the power of two of its digit count. -/
theorem float.lt_pow_bitLengthAux (fuel : Nat) :
    ∀ n : Nat, n ≤ fuel → n < 2 ^ float.bitLengthAux fuel n := by
  induction fuel with
  | zero =>
    intro n hf
    have : n = 0 := by omega
    subst this
    simp [float.bitLengthAux]
  | succ f ih =>
    intro n hf
    by_cases hn : n = 0
    · subst hn
      simp [float.bitLengthAux]
    · rw [float.bitLengthAux_pos (f + 1) n hn hf]
      simp only [Nat.add_sub_cancel]
      have h := ih (n / 2) (by omega)
      rw [Nat.pow_succ]
      omega

theorem float.lt_pow_bitLength (n : Nat) : n < 2 ^ float.bitLength n :=
  float.lt_pow_bitLengthAux n n (Nat.le_refl n)

/-- Rounding never passes a binary32 value that bounds the input from above. -/
theorem float.round_le_of_le (n c : Nat)
    (hc : float.isBinary32 (float.Finite false c) = true) (h : n ≤ c) :
    float.round false n ≤ float.Finite false c := by
  simp only [float.isBinary32, Bool.and_eq_true, Bool.or_eq_true, decide_eq_true_eq] at hc
  obtain ⟨hr, hb⟩ := hc
  have hfin : ∀ k : Nat, k ≤ c → float.Finite false k ≤ float.Finite false c := by
    intro k hk
    simp only [float.le_iff, float.le, float.lt, float.toInt, decide_eq_true_eq,
      Bool.not_eq_true', decide_eq_false_iff_not]
    omega
  by_cases hL : float.bitLength n ≤ 24
  · unfold float.round
    simp only
    rw [if_pos hL]
    exact hfin n h
  · have hn : n ≠ 0 := by
      intro h0
      apply hL
      rw [h0]
      simp [float.bitLength, float.bitLengthAux]
    have h1 := float.pow_bitLength_le n hn
    have h2 := float.lt_pow_bitLength c
    have hlen : float.bitLength n ≤ float.bitLength c := by
      by_contra hcon
      have h3 : 2 ^ float.bitLength c ≤ 2 ^ (float.bitLength n - 1) :=
        Nat.pow_le_pow_right (by norm_num) (by omega)
      omega
    have hm : c % 2 ^ (float.bitLength c - 24) = 0 := by
      rcases hb with hb | hb
      · omega
      · exact hb
    have hdvd : 2 ^ (float.bitLength n - 24) ∣ c :=
      Nat.dvd_trans (Nat.pow_dvd_pow 2 (by omega)) (Nat.dvd_of_mod_eq_zero hm)
    obtain ⟨j, hj⟩ := hdvd
    have hP : 0 < 2 ^ (float.bitLength n - 24) := Nat.pow_pos (by norm_num)
    have hdm := Nat.div_add_mod n (2 ^ (float.bitLength n - 24))
    have hq : n / 2 ^ (float.bitLength n - 24) ≤ j := by
      by_contra hcon
      have h4 : (j + 1) * 2 ^ (float.bitLength n - 24) ≤
          n / 2 ^ (float.bitLength n - 24) * 2 ^ (float.bitLength n - 24) :=
        Nat.mul_le_mul_right _ (by omega)
      rw [Nat.mul_comm] at hdm
      rw [Nat.add_mul, Nat.mul_comm j] at h4
      omega
    have hq1 : 0 < n % 2 ^ (float.bitLength n - 24) →
        n / 2 ^ (float.bitLength n - 24) + 1 ≤ j := by
      intro hpos
      by_contra hcon
      have h5 : n / 2 ^ (float.bitLength n - 24) = j := by omega
      rw [h5] at hdm
      omega
    have hhalf : 0 < 2 ^ (float.bitLength n - 24 - 1) := Nat.pow_pos (by norm_num)
    have hres : ∀ q1 : Nat, q1 ≤ j →
        (if 2 ^ 128 * 2 ^ 149 ≤ q1 * 2 ^ (float.bitLength n - 24) then float.Inf false
          else float.Finite false (q1 * 2 ^ (float.bitLength n - 24))) ≤
          float.Finite false c := by
      intro q1 hle
      have h6 : q1 * 2 ^ (float.bitLength n - 24) ≤ c := by
        rw [hj, Nat.mul_comm]
        exact Nat.mul_le_mul_left _ hle
      rw [if_neg (by omega)]
      exact hfin _ h6
    unfold float.round
    simp only
    rw [if_neg hL]
    by_cases hup : 2 ^ (float.bitLength n - 24 - 1) < n % 2 ^ (float.bitLength n - 24) ∨
        (n % 2 ^ (float.bitLength n - 24) = 2 ^ (float.bitLength n - 24 - 1) ∧
          n / 2 ^ (float.bitLength n - 24) % 2 = 1)
    · rw [if_pos hup]
      apply hres
      apply hq1
      rcases hup with hup | ⟨hup, _⟩ <;> omega
    · rw [if_neg hup]
      exact hres _ hq

theorem float.le_of_eq_of_le (a b c : float) (h : float.eq a b = true) (h2 : b ≤ c) :
    a ≤ c := by
  rcases a with _ | (_ | _) | ⟨(_ | _), k⟩ <;> rcases b with _ | (_ | _) | ⟨(_ | _), l⟩ <;>
    rcases c with _ | (_ | _) | ⟨(_ | _), m⟩ <;>
    simp only [float.lt_iff, float.le_iff, float.le, float.lt, float.eq, float.toInt,
      decide_eq_true_eq, decide_eq_false_iff_not, Bool.and_true, Bool.and_false, Bool.not_true,
      Bool.not_false, Bool.false_eq_true, Bool.not_eq_true', not_false_eq_true,
      not_true_eq_false, beq_iff_eq, ne_eq, reduceCtorEq, float.Inf.injEq, true_and, and_true,
      false_and, and_false, not_and, not_not, imp_false, false_implies, implies_true, true_implies] at h h2 ⊢ <;>
    omega

theorem float.sub_def (a b : float) : a - b = float.sub a b := rfl

/-- The sign of a finite difference: it is non-negative exactly when the
subtrahend is at most the minuend. -/
theorem float.zero_le_sub_iff (a b : float) (ha : a.isFinite = true)
    (hb : b.isFinite = true) : 0 ≤ a - b ↔ b ≤ a := by
  rcases a with _ | _ | ⟨s, k⟩ <;> simp only [float.isFinite, Bool.false_eq_true] at ha
  rcases b with _ | _ | ⟨t, l⟩ <;> simp only [float.isFinite, Bool.false_eq_true] at hb
  have hba : float.Finite t l ≤ float.Finite s k ↔
      0 ≤ (float.Finite s k).toInt - (float.Finite t l).toInt := by
    simp only [float.le_iff, float.le, float.lt, decide_eq_true_eq, Bool.not_eq_true',
      decide_eq_false_iff_not]
    omega
  rw [hba, float.sub_def]
  simp only [float.sub]
  by_cases hz : (float.Finite s k).toInt - (float.Finite t l).toInt = 0
  · rw [if_pos hz, hz, float.zero_def]
    cases (s && !t) <;> simp [float.le_iff, float.le, float.lt, float.toInt]
  · rw [if_neg hz]
    by_cases hneg : (float.Finite s k).toInt - (float.Finite t l).toInt < 0
    · rw [decide_eq_true hneg]
      have hlt := float.round_lt_zero
        ((float.Finite s k).toInt - (float.Finite t l).toInt).natAbs (by omega)
      constructor
      · intro h
        exact absurd h (float.not_le_of_lt _ _ hlt)
      · intro h
        omega
    · rw [decide_eq_false hneg]
      constructor
      · intro _
        omega
      · intro _
        exact float.zero_le_round _

/-- Damage above a non-negative health gives a negative difference. -/
theorem float.sub_lt_zero (a b : float) (h0 : 0 ≤ a) (h : a < b) : a - b < 0 := by
  rw [float.sub_def]
  rw [float.zero_def] at h0
  rcases a with _ | (_ | _) | ⟨s, k⟩ <;> rcases b with _ | (_ | _) | ⟨t, l⟩ <;>
    simp only [float.le_iff, float.lt_iff, float.le, float.lt, Bool.not_true, Bool.not_false,
      Bool.false_eq_true, Bool.and_true, Bool.and_false] at h0 h
  · simp only [float.sub, float.zero_def]
    rfl
  · simp only [float.sub]
    simp only [decide_eq_true_eq] at h
    rw [if_neg (by omega), decide_eq_true (by omega)]
    exact float.round_lt_zero _ (by omega)

/-- Subtracting negative infinity from a non-negative health gives infinity. -/
theorem float.sub_neg_inf (a : float) (h0 : 0 ≤ a) :
    a - float.Inf true = float.Inf false := by
  rw [float.sub_def]
  rw [float.zero_def] at h0
  rcases a with _ | (_ | _) | ⟨s, k⟩ <;>
    simp only [float.le_iff, float.le, float.lt, Bool.not_true, Bool.not_false,
      Bool.false_eq_true] at h0 <;>
    rfl

/-- A damage between 0 and a finite binary32 health leaves a difference
between 0 and that health. -/
theorem float.sub_mem (a b : float) (ha : a.isFinite = true) (hr : a.isBinary32 = true)
    (h0 : 0 ≤ b) (h1 : b ≤ a) : 0 ≤ a - b ∧ a - b ≤ a := by
  rcases a with _ | _ | ⟨s, k⟩ <;> simp only [float.isFinite, Bool.false_eq_true] at ha
  have hb : b.isFinite = true := by
    rw [float.zero_def] at h0
    rcases b with _ | (_ | _) | ⟨t, l⟩ <;>
      simp only [float.le_iff, float.le, float.lt, Bool.not_true, Bool.not_false,
        Bool.false_eq_true] at h0 h1
    rfl
  refine ⟨(float.zero_le_sub_iff (float.Finite s k) b rfl hb).mpr h1, ?_⟩
  rcases b with _ | _ | ⟨t, l⟩ <;> simp only [float.isFinite, Bool.false_eq_true] at hb
  rw [float.zero_def] at h0
  simp only [float.le_iff, float.le, float.lt, decide_eq_true_eq, Bool.not_eq_true',
    decide_eq_false_iff_not] at h0 h1
  rw [float.sub_def]
  simp only [float.sub]
  by_cases hz : (float.Finite s k).toInt - (float.Finite t l).toInt = 0
  · rw [if_pos hz]
    cases (s && !t) <;>
      simp only [float.le_iff, float.le, float.lt, decide_eq_true_eq, Bool.not_eq_true',
        decide_eq_false_iff_not] <;>
      simp only [float.toInt] at h0 h1 hz ⊢ <;>
      omega
  · rw [if_neg hz, decide_eq_false (by omega)]
    cases s with
    | true =>
      simp only [float.toInt] at h0 h1 hz
      cases t <;> simp only [float.toInt] at h0 h1 hz <;> omega
    | false =>
      apply float.round_le_of_le _ _ hr
      simp only [float.toInt] at h0 h1 hz ⊢
      cases t <;> simp only [float.toInt] at h0 h1 hz ⊢ <;> omega

theorem halfHealth_LocalRole : halfHealth.LocalRole = ENetRole.ROLE_Authority := by
  simp only [halfHealth, TakeDamage, SetCurrentHealth_LocalRole]
  rfl

theorem halfHealth_MaxHealth : halfHealth.MaxHealth = 100 := by
  simp only [halfHealth, TakeDamage, SetCurrentHealth_MaxHealth]
  rfl

theorem halfHealth_CurrentHealth : halfHealth.CurrentHealth = 50 := by
  simp only [halfHealth, TakeDamage]
  rw [SetCurrentHealth_CurrentHealth _ _ rfl]
  decide

/-- C10 as stated fails: at 50 of 100 health, the damage amount `-10` heals to
60; the returned value and the stored health are both 60 although `-10 < 0`. -/
theorem TakeDamage_return_eq_stored_negative_damage :
    halfHealth.LocalRole = ENetRole.ROLE_Authority ∧
      0 ≤ halfHealth.CurrentHealth ∧ halfHealth.CurrentHealth ≤ halfHealth.MaxHealth ∧
      (TakeDamage halfHealth (-10)).2 = 60 ∧
      (TakeDamage halfHealth (-10)).1.CurrentHealth = 60 ∧
      ¬ (float.eq (TakeDamage halfHealth (-10)).2
            (TakeDamage halfHealth (-10)).1.CurrentHealth = true ↔
          (0 ≤ (-10 : float) ∧ (-10 : float) ≤ halfHealth.CurrentHealth)) := by
  have hA := halfHealth_LocalRole
  have hM := halfHealth_MaxHealth
  have hC := halfHealth_CurrentHealth
  have hS : (TakeDamage halfHealth (-10)).1.CurrentHealth = 60 := by
    simp only [TakeDamage]
    rw [SetCurrentHealth_CurrentHealth _ _ hA, hM, hC]
    decide
  have hR : (TakeDamage halfHealth (-10)).2 = 60 := by
    simp only [TakeDamage]
    rw [hC]
    decide
  refine ⟨hA, ?_, ?_, hR, hS, ?_⟩
  · rw [hC]; decide
  · rw [hC, hM]; decide
  · rw [hS, hR, hC]
    decide

/-- C10, amended: on an authoritative character with `0 ≤ CurrentHealth ≤ MaxHealth`,
the value returned by `TakeDamage(d, ...)`, which is the `float` difference
`CurrentHealth_before - d`, equals the health stored after the call exactly
when that difference lies in `[0, MaxHealth]`; for finite operands it is at
least 0 exactly when `d ≤ CurrentHealth_before`, and for every
`0 ≤ d ≤ CurrentHealth_before` (health a finite binary32 value) returned and
stored agree; for `d > CurrentHealth_before` the return value is negative and
the stored health is 0; for `d < 0` the stored health stays at most
`MaxHealth`, while with a finite `MaxHealth` some negative `d` makes the
return value exceed it. -/
theorem TakeDamage_return_vs_stored (c : AUnrealEngineCharacter) (d : float)
    (hA : c.LocalRole = ENetRole.ROLE_Authority)
    (h0 : 0 ≤ c.CurrentHealth) (h1 : c.CurrentHealth ≤ c.MaxHealth) :
    (float.eq (TakeDamage c d).2 (TakeDamage c d).1.CurrentHealth = true ↔
        (0 ≤ (TakeDamage c d).2 ∧ (TakeDamage c d).2 ≤ c.MaxHealth)) ∧
      (c.CurrentHealth.isFinite = true → d.isFinite = true →
        (0 ≤ (TakeDamage c d).2 ↔ d ≤ c.CurrentHealth)) ∧
      (c.CurrentHealth.isFinite = true → c.CurrentHealth.isBinary32 = true →
        0 ≤ d → d ≤ c.CurrentHealth →
        float.eq (TakeDamage c d).2 (TakeDamage c d).1.CurrentHealth = true) ∧
      (c.CurrentHealth < d →
        (TakeDamage c d).2 < 0 ∧ (TakeDamage c d).1.CurrentHealth = 0) ∧
      (d < 0 → (TakeDamage c d).1.CurrentHealth ≤ c.MaxHealth) ∧
      (c.MaxHealth < float.Inf false →
        ∃ d0 : float, d0 < 0 ∧ c.MaxHealth < (TakeDamage c d0).2) := by
  have hS : ∀ x : float, (TakeDamage c x).1.CurrentHealth =
      FMath.Clamp (c.CurrentHealth - x) 0 c.MaxHealth := by
    intro x
    simp only [TakeDamage]
    exact SetCurrentHealth_CurrentHealth c _ hA
  have hR : ∀ x : float, (TakeDamage c x).2 = c.CurrentHealth - x := fun _ => rfl
  have hM : (0 : float) ≤ c.MaxHealth := float.le_trans _ _ _ h0 h1
  have hz : (0 : float) ≠ float.NaN := (float.le_ne_NaN _ _ h0).1
  have hiff : float.eq (c.CurrentHealth - d) (FMath.Clamp (c.CurrentHealth - d) 0 c.MaxHealth)
      = true ↔ (0 ≤ c.CurrentHealth - d ∧ c.CurrentHealth - d ≤ c.MaxHealth) := by
    unfold FMath.Clamp
    by_cases a : c.CurrentHealth - d < 0
    · rw [if_pos a, float.eq_iff]
      constructor
      · intro h; exact absurd a h.2
      · intro h; exact absurd h.1 (float.not_le_of_lt _ _ a)
    · rw [if_neg a]
      by_cases b : c.CurrentHealth - d < c.MaxHealth
      · rw [if_pos b, float.eq_iff]
        have hn := (float.lt_ne_NaN _ _ b).1
        constructor
        · intro _
          exact ⟨float.le_of_not_lt _ _ hn hz a, float.le_of_lt _ _ b⟩
        · intro _
          exact ⟨float.le_refl _ hn, fun hlt => float.lt_asymm _ _ hlt hlt⟩
      · rw [if_neg b, float.eq_iff]
        constructor
        · intro h
          exact ⟨float.le_of_not_lt _ _ (float.le_ne_NaN _ _ h.1).1 hz a, h.1⟩
        · intro h
          exact ⟨h.2, b⟩
  refine ⟨?_, ?_, ?_, ?_, ?_, ?_⟩
  · rw [hS, hR]
    exact hiff
  · intro hc hd
    rw [hR]
    exact float.zero_le_sub_iff _ _ hc hd
  · intro hc hb hd0 hd1
    rw [hS, hR]
    have hm := float.sub_mem c.CurrentHealth d hc hb hd0 hd1
    exact hiff.mpr ⟨hm.1, float.le_trans _ _ _ hm.2 h1⟩
  · intro hd
    rw [hS, hR]
    have hneg := float.sub_lt_zero c.CurrentHealth d h0 hd
    exact ⟨hneg, by simp [FMath.Clamp, hneg]⟩
  · intro _
    rw [hS]
    exact (FMath.Clamp_mem _ 0 c.MaxHealth hM).2
  · intro hfin
    refine ⟨float.Inf true, ?_, ?_⟩
    · rw [float.zero_def]
      rfl
    · rw [hR, float.sub_neg_inf _ h0]
      exact hfin

/-- At 50 of 100 health the damage `-10` gives the difference 60, which lies in
`[0, 100]`: returned and stored health agree. -/
theorem TakeDamage_return_vs_stored_witness :
    halfHealth.LocalRole = ENetRole.ROLE_Authority ∧
      0 ≤ halfHealth.CurrentHealth ∧ halfHealth.CurrentHealth ≤ halfHealth.MaxHealth ∧
      (float.eq (TakeDamage halfHealth (-10)).2
          (TakeDamage halfHealth (-10)).1.CurrentHealth = true ↔
        (0 ≤ (TakeDamage halfHealth (-10)).2 ∧
          (TakeDamage halfHealth (-10)).2 ≤ halfHealth.MaxHealth)) := by
  have hA := halfHealth_LocalRole
  have hM := halfHealth_MaxHealth
  have hC := halfHealth_CurrentHealth
  have h0 : 0 ≤ halfHealth.CurrentHealth := by rw [hC]; decide
  have h1 : halfHealth.CurrentHealth ≤ halfHealth.MaxHealth := by rw [hC, hM]; decide
  exact ⟨hA, h0, h1, (TakeDamage_return_vs_stored halfHealth (-10) hA h0 h1).1⟩


/-! ## Firing -/

/-- The spawn request `HandleFire_Implementation` hands to the world. -/
theorem HandleFire_Implementation_fields (c : AUnrealEngineCharacter) :
    HandleFire_Implementation c =
      c.emit [Effect.SpawnActor UClass.AThirdPersonMPProjectile_StaticClass
        ((c.ActorLocation.add (c.ActorForwardVector.scale 100)).add (c.ActorUpVector.scale 50))
        c.ActorRotation { Instigator := c.Instigator, Owner := some c.Self }] := rfl

theorem rpcEffects_count_HandleFire (c : AUnrealEngineCharacter) :
    List.count Effect.HandleFire (rpcEffects c) = 0 := by
  unfold rpcEffects
  split_ifs <;> simp

theorem rpcEffects_count_SetTimer (c : AUnrealEngineCharacter) (cb : TimerDelegate)
    (r : float) (l : Bool) : List.count (Effect.SetTimer cb r l) (rpcEffects c) = 0 := by
  unfold rpcEffects
  split_ifs <;> simp

/-- The RPC extends the trace by its request and, with authority, by the spawn. -/
theorem HandleFire_fields (c : AUnrealEngineCharacter) :
    HandleFire c = c.emit (Effect.HandleFire :: rpcEffects c) := by
  unfold HandleFire rpcEffects
  simp only [emit_LocalRole]
  split_ifs
  · rw [HandleFire_Implementation_fields, emit_emit]
    rfl
  · rfl

/-- Arming the timer sets the handle and records the call. -/
theorem SetTimer_fields (c : AUnrealEngineCharacter) (cb : TimerDelegate) (r : float)
    (l : Bool) :
    SetTimer c cb r l =
      AUnrealEngineCharacter.emit
        { c with
          FiringTimer := some { Remaining := r, Rate := r, bLoop := l, Callback := cb } }
        [Effect.SetTimer cb r l] := rfl

/-- An idle character that starts firing: flag set, timer armed with
`FireRate`, and three or four calls appended to the trace. -/
theorem StartFire_idle (c : AUnrealEngineCharacter) (h : c.bIsFiringWeapon = false) :
    StartFire c =
      AUnrealEngineCharacter.emit
        { c with
          bIsFiringWeapon := true
          FiringTimer := some
            { Remaining := c.FireRate, Rate := c.FireRate, bLoop := false,
              Callback := TimerDelegate.StopFire } }
        (Effect.SetTimer TimerDelegate.StopFire c.FireRate false ::
          Effect.UE_LOG LogLine.StartFireCalled :: Effect.HandleFire :: rpcEffects c) := by
  unfold StartFire
  simp only [h, Bool.not_false, if_true]
  rw [HandleFire_fields, emit_emit, SetTimer_fields, emit_emit]
  rfl

/-- A character that is already firing ignores `StartFire`. -/
theorem StartFire_busy (c : AUnrealEngineCharacter) (h : c.bIsFiringWeapon = true) :
    StartFire c = c := by
  simp [StartFire, h]

/-- Before the delay has elapsed a tick only shortens the pending timer. -/
theorem TimerManager_Tick_pending (c : AUnrealEngineCharacter) (t : FTimerData) (dt : float)
    (ht : c.FiringTimer = some t) (hdt : dt < t.Remaining) :
    TimerManager_Tick c dt =
      { c with FiringTimer := some { t with Remaining := t.Remaining - dt } } := by
  unfold TimerManager_Tick
  rw [ht]
  simp only
  rw [if_neg (float.not_le_of_lt dt t.Remaining hdt)]

/-- Once the delay has elapsed a one-shot `StopFire` timer clears the flag and is gone. -/
theorem TimerManager_Tick_expired (c : AUnrealEngineCharacter) (t : FTimerData) (dt : float)
    (ht : c.FiringTimer = some t) (hdt : t.Remaining ≤ dt) (hl : t.bLoop = false)
    (hc : t.Callback = TimerDelegate.StopFire) :
    TimerManager_Tick c dt = { c with FiringTimer := none, bIsFiringWeapon := false } := by
  unfold TimerManager_Tick
  rw [ht]
  simp only
  rw [if_pos hdt, hl, hc]
  rfl

/-- No call changes `MaxHealth`, and none but the setter changes `CurrentHealth`. -/
theorem StartFire_health (c : AUnrealEngineCharacter) :
    (StartFire c).CurrentHealth = c.CurrentHealth ∧ (StartFire c).MaxHealth = c.MaxHealth := by
  cases h : c.bIsFiringWeapon
  · rw [StartFire_idle c h]; exact ⟨rfl, rfl⟩
  · rw [StartFire_busy c h]; exact ⟨rfl, rfl⟩

theorem HandleFire_health (c : AUnrealEngineCharacter) :
    (HandleFire c).CurrentHealth = c.CurrentHealth ∧ (HandleFire c).MaxHealth = c.MaxHealth := by
  rw [HandleFire_fields c]; exact ⟨rfl, rfl⟩

theorem OnHealthUpdate_health (c : AUnrealEngineCharacter) :
    (OnHealthUpdate c).CurrentHealth = c.CurrentHealth ∧
      (OnHealthUpdate c).MaxHealth = c.MaxHealth := by
  obtain ⟨es, hes⟩ := OnHealthUpdate_fields c
  rw [hes]; exact ⟨rfl, rfl⟩

theorem TimerManager_Tick_health (c : AUnrealEngineCharacter) (dt : float) :
    (TimerManager_Tick c dt).CurrentHealth = c.CurrentHealth ∧
      (TimerManager_Tick c dt).MaxHealth = c.MaxHealth := by
  unfold TimerManager_Tick
  cases c.FiringTimer with
  | none => exact ⟨rfl, rfl⟩
  | some t =>
    simp only
    by_cases hle : t.Remaining ≤ dt
    · rw [if_pos hle]
      cases t.Callback
      exact ⟨rfl, rfl⟩
    · rw [if_neg hle]
      exact ⟨rfl, rfl⟩

/-- Every call preserves the health bounds. -/
theorem Call.apply_HealthInvariant (k : Call) (c : AUnrealEngineCharacter)
    (h : HealthInvariant c) : HealthInvariant (k.apply c) := by
  unfold HealthInvariant at *
  cases k with
  | SetCurrentHealth v =>
    simp only [Call.apply]
    by_cases hA : c.LocalRole = ENetRole.ROLE_Authority
    · rw [SetCurrentHealth_MaxHealth, SetCurrentHealth_CurrentHealth c v hA]
      exact FMath.Clamp_mem _ 0 c.MaxHealth (float.le_trans _ _ _ h.1 h.2)
    · rw [SetCurrentHealth_skip c v hA]; exact h
  | TakeDamage d =>
    simp only [Call.apply, UnrealEngineCharacter.TakeDamage]
    by_cases hA : c.LocalRole = ENetRole.ROLE_Authority
    · rw [SetCurrentHealth_MaxHealth, SetCurrentHealth_CurrentHealth c _ hA]
      exact FMath.Clamp_mem _ 0 c.MaxHealth (float.le_trans _ _ _ h.1 h.2)
    · rw [SetCurrentHealth_skip c _ hA]; exact h
  | StartFire =>
    simp only [Call.apply]
    rw [(StartFire_health c).1, (StartFire_health c).2]; exact h
  | StopFire => exact h
  | HandleFire =>
    simp only [Call.apply]
    rw [(HandleFire_health c).1, (HandleFire_health c).2]; exact h
  | HandleFire_Implementation => exact h
  | OnRep_CurrentHealth =>
    simp only [Call.apply, UnrealEngineCharacter.OnRep_CurrentHealth]
    rw [(OnHealthUpdate_health c).1, (OnHealthUpdate_health c).2]; exact h
  | OnHealthUpdate =>
    simp only [Call.apply]
    rw [(OnHealthUpdate_health c).1, (OnHealthUpdate_health c).2]; exact h
  | TimerManager_Tick dt =>
    simp only [Call.apply]
    rw [(TimerManager_Tick_health c dt).1, (TimerManager_Tick_health c dt).2]; exact h
  | SetLocalRole r => exact h

/-- A sequence of calls preserves the health bounds. -/
theorem runCalls_HealthInvariant (calls : List Call) (c : AUnrealEngineCharacter)
    (h : HealthInvariant c) : HealthInvariant (runCalls calls c) := by
  induction calls generalizing c with
  | nil => exact h
  | cons k ks ih => exact ih (k.apply c) (Call.apply_HealthInvariant k c h)

/-- C4: in every state reached from the freshly constructed character
(`MaxHealth = 100`, `CurrentHealth = MaxHealth`) by a finite sequence of
`SetCurrentHealth`, `TakeDamage`, `StartFire`, `StopFire`, `HandleFire`,
`OnRep_CurrentHealth`, `OnHealthUpdate` calls, timer ticks and role changes,
`0 ≤ CurrentHealth ≤ MaxHealth` holds. -/
theorem health_invariant_reachable (e : EngineState) (calls : List Call) :
    0 ≤ (runCalls calls (AUnrealEngineCharacter.construct e)).CurrentHealth ∧
      (runCalls calls (AUnrealEngineCharacter.construct e)).CurrentHealth ≤
        (runCalls calls (AUnrealEngineCharacter.construct e)).MaxHealth := by
  apply runCalls_HealthInvariant
  constructor
  · show (0 : float) ≤ 100
    decide
  · show (100 : float) ≤ 100
    decide

/-- The state of a character after an idle `StartFire`, field by field. -/
theorem StartFire_idle_bIsFiringWeapon (c : AUnrealEngineCharacter)
    (h : c.bIsFiringWeapon = false) : (StartFire c).bIsFiringWeapon = true := by
  rw [StartFire_idle c h]; rfl

theorem StartFire_idle_FiringTimer (c : AUnrealEngineCharacter)
    (h : c.bIsFiringWeapon = false) :
    (StartFire c).FiringTimer = some
      { Remaining := c.FireRate, Rate := c.FireRate, bLoop := false,
        Callback := TimerDelegate.StopFire } := by
  rw [StartFire_idle c h]; rfl

theorem StartFire_FireRate (c : AUnrealEngineCharacter) :
    (StartFire c).FireRate = c.FireRate := by
  cases h : c.bIsFiringWeapon
  · rw [StartFire_idle c h]; rfl
  · rw [StartFire_busy c h]

theorem StartFire_idle_count_HandleFire (c : AUnrealEngineCharacter)
    (h : c.bIsFiringWeapon = false) :
    List.count Effect.HandleFire (StartFire c).Trace =
      List.count Effect.HandleFire c.Trace + 1 := by
  rw [StartFire_idle c h]
  simp [List.count_cons, rpcEffects_count_HandleFire]

theorem StartFire_idle_count_SetTimer (c : AUnrealEngineCharacter)
    (h : c.bIsFiringWeapon = false) (cb : TimerDelegate) (r : float) (l : Bool) :
    List.count (Effect.SetTimer cb r l) (StartFire c).Trace =
      List.count (Effect.SetTimer cb r l) c.Trace +
        (if Effect.SetTimer TimerDelegate.StopFire c.FireRate false = Effect.SetTimer cb r l
          then 1 else 0) := by
  rw [StartFire_idle c h]
  simp [List.count_cons, rpcEffects_count_SetTimer]

/-- C5: from an idle character, the first `StartFire` sets `bIsFiringWeapon`,
arms the one-shot `StopFire` timer with `FireRate` and issues one `HandleFire`
request; a second `StartFire` with no timer expiry in between (directly, or
after less than `FireRate` seconds) returns the state unchanged, so the two
calls together add exactly one `HandleFire` request and one `SetTimer` call. -/
theorem StartFire_twice_one_request (c : AUnrealEngineCharacter)
    (h : c.bIsFiringWeapon = false) :
    (StartFire c).bIsFiringWeapon = true ∧
      (StartFire c).FiringTimer = some
        { Remaining := c.FireRate, Rate := c.FireRate, bLoop := false,
          Callback := TimerDelegate.StopFire } ∧
      List.count Effect.HandleFire (StartFire c).Trace =
        List.count Effect.HandleFire c.Trace + 1 ∧
      StartFire (StartFire c) = StartFire c ∧
      List.count Effect.HandleFire (StartFire (StartFire c)).Trace =
        List.count Effect.HandleFire c.Trace + 1 ∧
      List.count (Effect.SetTimer TimerDelegate.StopFire c.FireRate false)
          (StartFire (StartFire c)).Trace =
        List.count (Effect.SetTimer TimerDelegate.StopFire c.FireRate false) c.Trace + 1 ∧
      (∀ dt : float, dt < c.FireRate →
        StartFire (TimerManager_Tick (StartFire c) dt) = TimerManager_Tick (StartFire c) dt ∧
          (TimerManager_Tick (StartFire c) dt).Trace = (StartFire c).Trace) := by
  have hb := StartFire_idle_bIsFiringWeapon c h
  have ht := StartFire_idle_FiringTimer c h
  have hn := StartFire_idle_count_HandleFire c h
  have hs := StartFire_idle_count_SetTimer c h TimerDelegate.StopFire c.FireRate false
  have h2 := StartFire_busy (StartFire c) hb
  refine ⟨hb, ht, hn, h2, ?_, ?_, ?_⟩
  · rw [h2, hn]
  · rw [h2, hs, if_pos rfl]
  · intro dt hdt
    have hp := TimerManager_Tick_pending (StartFire c) _ dt ht hdt
    rw [hp]
    exact ⟨StartFire_busy _ hb, rfl⟩

/-- On a fresh authoritative character two `StartFire` calls leave one request. -/
theorem StartFire_twice_one_request_witness :
    (sample ENetRole.ROLE_Authority).bIsFiringWeapon = false ∧
      StartFire (StartFire (sample ENetRole.ROLE_Authority)) =
        StartFire (sample ENetRole.ROLE_Authority) ∧
      List.count Effect.HandleFire
        (StartFire (StartFire (sample ENetRole.ROLE_Authority))).Trace = 1 := by
  have h := StartFire_twice_one_request (sample ENetRole.ROLE_Authority) rfl
  exact ⟨rfl, h.2.2.2.1, h.2.2.2.2.1⟩

/-- C6: after `StartFire` on an idle character and the expiry of the one-shot
timer it armed (`FireRate` seconds or more pass), `bIsFiringWeapon` is false
and the timer is gone; the next `StartFire` sets `bIsFiringWeapon` again,
re-arms the timer with `FireRate` and adds exactly one more `HandleFire`
request. -/
theorem StartFire_accepted_after_cooldown (c : AUnrealEngineCharacter) (dt : float)
    (h : c.bIsFiringWeapon = false) (hdt : c.FireRate ≤ dt) :
    (TimerManager_Tick (StartFire c) dt).bIsFiringWeapon = false ∧
      (TimerManager_Tick (StartFire c) dt).FiringTimer = none ∧
      (StartFire (TimerManager_Tick (StartFire c) dt)).bIsFiringWeapon = true ∧
      (StartFire (TimerManager_Tick (StartFire c) dt)).FiringTimer = some
        { Remaining := c.FireRate, Rate := c.FireRate, bLoop := false,
          Callback := TimerDelegate.StopFire } ∧
      List.count Effect.HandleFire (StartFire (TimerManager_Tick (StartFire c) dt)).Trace =
        List.count Effect.HandleFire (StartFire c).Trace + 1 ∧
      List.count Effect.HandleFire (StartFire (TimerManager_Tick (StartFire c) dt)).Trace =
        List.count Effect.HandleFire c.Trace + 2 := by
  have ht := StartFire_idle_FiringTimer c h
  have hx := TimerManager_Tick_expired (StartFire c) _ dt ht hdt rfl rfl
  have hidle : (TimerManager_Tick (StartFire c) dt).bIsFiringWeapon = false := by
    rw [hx]
  have hrate : (TimerManager_Tick (StartFire c) dt).FireRate = c.FireRate := by
    rw [hx]; exact StartFire_FireRate c
  have htrace : (TimerManager_Tick (StartFire c) dt).Trace = (StartFire c).Trace := by
    rw [hx]
  have hn := StartFire_idle_count_HandleFire _ hidle
  refine ⟨hidle, by rw [hx], StartFire_idle_bIsFiringWeapon _ hidle, ?_, ?_, ?_⟩
  · rw [StartFire_idle_FiringTimer _ hidle, hrate]
  · rw [hn, htrace]
  · rw [hn, htrace, StartFire_idle_count_HandleFire c h]

/-- A fresh character fires, a quarter of a second passes, and it fires again. -/
theorem StartFire_accepted_after_cooldown_witness :
    (sample ENetRole.ROLE_Authority).bIsFiringWeapon = false ∧
      (sample ENetRole.ROLE_Authority).FireRate ≤ float.Finite false (2 ^ 147) ∧
      (TimerManager_Tick (StartFire (sample ENetRole.ROLE_Authority))
        (float.Finite false (2 ^ 147))).bIsFiringWeapon = false ∧
      (StartFire (TimerManager_Tick (StartFire (sample ENetRole.ROLE_Authority))
        (float.Finite false (2 ^ 147)))).bIsFiringWeapon = true ∧
      List.count Effect.HandleFire
        (StartFire (TimerManager_Tick (StartFire (sample ENetRole.ROLE_Authority))
          (float.Finite false (2 ^ 147)))).Trace = 2 := by
  have hr : (sample ENetRole.ROLE_Authority).FireRate ≤ float.Finite false (2 ^ 147) := by
    decide
  have h := StartFire_accepted_after_cooldown (sample ENetRole.ROLE_Authority)
    (float.Finite false (2 ^ 147)) rfl hr
  exact ⟨rfl, hr, h.1, h.2.2.1, h.2.2.2.2.2⟩

/-- C7 fails on the code: with `ProjectileClass` set to a derived class,
`HandleFire_Implementation` still asks the world for the native class
`AThirdPersonMPProjectile`, not for `ProjectileClass`. -/
theorem HandleFire_Implementation_ignores_ProjectileClass :
    customProjectile.ProjectileClass = UClass.derived 1 ∧
      (HandleFire_Implementation customProjectile).Trace =
        [Effect.SpawnActor UClass.AThirdPersonMPProjectile_StaticClass
          ((customProjectile.ActorLocation.add
            (customProjectile.ActorForwardVector.scale 100)).add
            (customProjectile.ActorUpVector.scale 50))
          customProjectile.ActorRotation
          { Instigator := customProjectile.Instigator, Owner := some customProjectile.Self }] ∧
      UClass.AThirdPersonMPProjectile_StaticClass ≠ customProjectile.ProjectileClass := by
  refine ⟨rfl, rfl, ?_⟩
  intro h
  cases h

/-! ## Input -/

/-- C8 as stated fails: on a component that is not an enhanced-input
component and had no bindings, the call leaves the legacy "Fire" binding. -/
theorem SetupPlayerInputComponent_not_enhanced_binds_Fire :
    (SetupPlayerInputComponent (sample ENetRole.ROLE_Authority)
        { isEnhancedInputComponent := false, Bindings := [] }).2.Bindings =
      [FInputBinding.Action FActionName.Fire EInputEvent.IE_Pressed Handler.StartFire] ∧
      (SetupPlayerInputComponent (sample ENetRole.ROLE_Authority)
        { isEnhancedInputComponent := false, Bindings := [] }).2.Bindings ≠ [] := by
  have h : (SetupPlayerInputComponent (sample ENetRole.ROLE_Authority)
        { isEnhancedInputComponent := false, Bindings := [] }).2.Bindings =
      [FInputBinding.Action FActionName.Fire EInputEvent.IE_Pressed Handler.StartFire] := rfl
  refine ⟨h, ?_⟩
  rw [h]
  exact List.cons_ne_nil _ _

/-- C8, amended: when the input component is not an enhanced-input component,
`SetupPlayerInputComponent` logs the error as its last call and registers
exactly one binding, the legacy "Fire" pressed binding to `StartFire`; no
enhanced-input binding (Jump, Move, Look) is added. -/
theorem SetupPlayerInputComponent_not_enhanced (c : AUnrealEngineCharacter)
    (p : UInputComponent) (h : p.isEnhancedInputComponent = false) :
    (SetupPlayerInputComponent c p).2.Bindings =
        p.Bindings ++
          [FInputBinding.Action FActionName.Fire EInputEvent.IE_Pressed Handler.StartFire] ∧
      (SetupPlayerInputComponent c p).1.Trace.getLast? =
        some (Effect.UE_LOG LogLine.FailedToFindEnhancedInput) ∧
      (∀ a t f, FInputBinding.EnhancedAction a t f ∈ (SetupPlayerInputComponent c p).2.Bindings →
        FInputBinding.EnhancedAction a t f ∈ p.Bindings) := by
  have hb : (SetupPlayerInputComponent c p).2.Bindings =
      p.Bindings ++
        [FInputBinding.Action FActionName.Fire EInputEvent.IE_Pressed Handler.StartFire] := by
    simp [SetupPlayerInputComponent, UInputComponent.bind, h]
  refine ⟨hb, ?_, ?_⟩
  · simp [SetupPlayerInputComponent, UInputComponent.bind, h]
  · intro a t f hm
    rw [hb] at hm
    simpa using hm

/-- On a legacy component without bindings only the "Fire" binding results. -/
theorem SetupPlayerInputComponent_not_enhanced_witness :
    (SetupPlayerInputComponent (sample ENetRole.ROLE_AutonomousProxy)
        { isEnhancedInputComponent := false, Bindings := [] }).2.Bindings =
      [] ++ [FInputBinding.Action FActionName.Fire EInputEvent.IE_Pressed Handler.StartFire] :=
  (SetupPlayerInputComponent_not_enhanced (sample ENetRole.ROLE_AutonomousProxy)
    { isEnhancedInputComponent := false, Bindings := [] } rfl).1

end UnrealEngineCharacter
